import Mathlib

/-!
Verification development for the veille-stages aggregation job
(`veille-complete.py`): a shallow embedding of its string utilities,
relevance classifier, feed/markup extraction, deduplication against the
persisted seen-link store, priority ranking, message chunking, the retrying
fetch helper and the orchestration tail, together with theorems settling the
specification claims about them.

Conventions of the embedding:
- Python strings are Lean `String`s; character-level helpers (`pyStrip`,
  `pyLower`, `strContains`, …) reimplement the `str` methods the script uses,
  restricted to the ASCII behaviour the script relies on, so that every
  definition evaluates inside the kernel.
- External library capabilities (HTML-to-text stripping via BeautifulSoup,
  URL joining via `urllib.parse.urljoin`, JSON parsing, the HTTP transport,
  the Telegram transport) are taken as parameters or small outcome types,
  exactly at the boundary where the script calls them.
- Machine `float` only appears as the sleep duration `1.5 * attempt`; it is
  modelled exactly in tenths of a second (`15 * attempt`), since `1.5` is a
  dyadic rational and the products are exact.
-/

/-! ## Python string primitives -/

/-- Whitespace as recognised by `str.strip` / `\s` for the ASCII range used
by the script. -/
def pyIsWs (c : Char) : Bool :=
  c == ' ' || c == '\t' || c == '\n' || c == '\x0b' || c == '\x0c' || c == '\r'

/-- Drop leading and trailing whitespace from a character list
(`str.strip`). -/
def trimChars (cs : List Char) : List Char :=
  ((cs.dropWhile pyIsWs).reverse.dropWhile pyIsWs).reverse

/-- `s.strip()`. -/
def pyStrip (s : String) : String := ⟨trimChars s.data⟩

/-- `str.lower` on one character, for the ASCII letters the script's term
lists rely on (its accented terms are already lower-case in the source). -/
def pyCharLower (c : Char) : Char :=
  if 'A' ≤ c && c ≤ 'Z' then Char.ofNat (c.toNat + 32) else c

/-- `s.lower()`. -/
def pyLower (s : String) : String := ⟨s.data.map pyCharLower⟩

/-- Python's `needle in hay` substring test. -/
def strContains (needle hay : String) : Bool :=
  hay.data.tails.any (fun t => needle.data.isPrefixOf t)

/-- Python's `a or b` on strings: `a` when non-empty, else `b`. -/
def pyOr (a b : String) : String := if a = "" then b else a

/-- One step of collapsing whitespace runs to a single space, consumed by a
right fold (`re.sub r"\s+" " "`). -/
def cwStep (c : Char) (acc : List Char) : List Char :=
  if pyIsWs c then
    if acc.head? == some ' ' then acc else ' ' :: acc
  else c :: acc

/-- `truncate` from the script: collapse whitespace runs to single spaces,
strip the ends, and cut to `n` characters with a trailing ellipsis when the
text is longer. -/
def truncate (s : String) (n : Nat := 300) : String :=
  let t := trimChars (s.data.foldr cwStep [])
  if t.length ≤ n then ⟨t⟩ else ⟨t.take (n - 1) ++ ['…']⟩

/-! ## Term lists (from `VeilleStagesComplete.__init__`) -/

/-- `base_ir`: the IR/diplomacy subject vocabulary, verbatim from the
script. -/
def base_ir : List String := [
  "relations internationales", "international relations", "diplomatie", "diplomacy",
  "sécurité internationale", "international security", "défense", "defense",
  "géopolitique", "geopolitics", "politique étrangère", "foreign policy",
  "analyse de données", "data analysis", "data scientist", "quantitative", "qualitative",
  "open source", "osint", "policy", "research assistant", "analyste", "researcher",
  "think tank", "ngos", "ngo", "ong", "charity",
  "moyen-orient", "middle east", "proche-orient", "near east", "iran", "turkey", "turquie",
  "lebanon", "liban", "syria", "syrie", "iraq", "irak", "saudi", "émirats", "uae",
  "qatar", "yemen", "oman", "israel", "palestine", "egypt", "egypte", "jordan", "jordanie",
  "caucasus", "caucase", "armenia", "azerbaijan", "georgia", "géorgie",
  "union européenne", "european union", "ue", "eu", "commission", "parlement européen",
  "otan", "nato", "onu", "un", "osce", "odhir", "coe", "council of europe",
  "ambassade", "embassy", "consulat", "consulate", "institut culturel", "cultural institute",
  "alliances françaises", "alliance française", "institut français",
  "stage", "intern", "internship", "trainee", "traineeship", "stagiaire",
  "assistant", "junior", "entry-level", "graduate programme", "programme diplômé",
  "bachelor", "licence", "bac+3", "césure", "gap year", "6 mois", "12 mois", "1 an",
  "vie", "via", "volontariat international", "service civique", "service national universel",
  "schuman", "blue book", "traineeships"]

/-- `larges`: the broader category vocabulary, verbatim from the script. -/
def larges : List String := [
  "accueil", "accueil du public", "front desk", "reception",
  "finance", "financial", "comptabilité", "accounting", "budget", "grants",
  "voyage", "travel", "logistics", "visa", "procurement",
  "académique", "academic", "université", "university", "research centre",
  "sports", "sport", "événementiel", "events", "event",
  "bibliothèque", "library", "documentation", "archives",
  "communication", "communications", "digital", "content", "editorial", "web",
  "press", "presse", "media", "journalism", "public affairs", "advocacy",
  "humanitarian", "relief", "development", "développement"]

/-- `self.keywords = [k.lower() for k in base_ir + larges]`. -/
def keywords : List String := (base_ir ++ larges).map pyLower

/-- `self.zones`, verbatim from the script, lower-cased as there. -/
def zones : List String := ([
  "europe", "france", "royaume-uni", "uk", "londres", "bruxelles", "brussels",
  "strasbourg", "genève", "geneva", "berlin", "rome", "madrid", "lisbon", "vienna",
  "canada", "ottawa", "montreal", "montréal", "toronto", "vancouver",
  "moyen-orient", "proche-orient", "middle east", "near east", "iran", "turkey",
  "lebanon", "syria", "iraq", "saudi", "uae", "qatar", "oman", "yemen", "israel",
  "palestine", "egypt", "jordan", "armenia", "azerbaijan", "georgia"] : List String).map pyLower

/-- `self.duree_terms`, verbatim from the script. -/
def duree_terms : List String := ([
  "6 mois", "12 mois", "1 an", "18 mois", "24 mois",
  "avril 2026", "2026", "2027", "long term", "long terme"] : List String).map pyLower

/-- The priority term list hard-coded in `is_prioritaire`. -/
def prioritaire_terms : List String := [
  "iran", "moyen-orient", "middle east", "sécurité internationale",
  "vie", "via", "ambassade", "consulat", "think tank", "schuman", "blue book"]

/-- The organisational-relevance signal tokens the RSS path tests with
`any(x in texte for x in [...])`. -/
def rss_signal_tokens : List String :=
  ["un ", " osce", "nato", "eu ", "commission", "parliament", "ngo", "think tank"]

/-- The organisation-name allowlist the HTML path tests with
`source["nom"].lower().startswith((...))`. -/
def source_name_allowlist : List String :=
  ["osce", "euiss", "eu-japan", "commission", "parlement"]

/-! ## Relevance predicates -/

/-- `match_keywords`: any subject keyword occurs in the lower-cased text. -/
def match_keywords (text : String) : Bool :=
  keywords.any (fun kw => strContains kw (pyLower text))

/-- `match_zone`: any geography term occurs in the lower-cased text. -/
def match_zone (text : String) : Bool :=
  zones.any (fun z => strContains z (pyLower text))

/-- `match_duree`: any duration term occurs in the lower-cased text. -/
def match_duree (text : String) : Bool :=
  duree_terms.any (fun d => strContains d (pyLower text))

/-- `is_prioritaire`: any priority term occurs in the lower-cased text. -/
def is_prioritaire (text : String) : Bool :=
  prioritaire_terms.any (fun p => strContains p (pyLower text))

/-! ## The Posting record -/

/-- One extracted posting, with the exact fields the script's offer
dictionaries carry. -/
structure Offre where
  date : String
  organisation : String
  titre : String
  lieu : String
  lien : String
  description : String
deriving DecidableEq, Repr

/-! ## Feed extraction (`extraire_offres_rss`) -/

/-- One parsed feed entry, as surfaced by the feed-parsing capability:
`entry.get(field, "")` for each of the fields the script reads. -/
structure Entry where
  title : String
  link : String
  summary : String
  description : String
  published : String
  updated : String
deriving DecidableEq, Repr

/-- The per-entry body of `extraire_offres_rss`'s loop. `stripHtml` is the
external markup-to-text capability
(`BeautifulSoup(desc, "html.parser").get_text(" ")`). Returns `none` when
the entry is skipped by one of the `continue`s. -/
def process_rss_entry (stripHtml : String → String) (e : Entry) : Option Offre :=
  let titre := pyStrip e.title
  let lien := pyStrip e.link
  let desc := pyOr e.summary e.description
  let date_pub := pyOr e.published (pyOr e.updated "")
  if lien = "" then none
  else
    let texte := pyLower (titre ++ " " ++ desc)
    if !match_keywords texte then none
    else if match_zone texte || match_duree texte
        || rss_signal_tokens.any (fun x => strContains x texte) then
      some { date := date_pub, organisation := "RSS", titre := titre, lieu := "",
             lien := lien, description := truncate (stripHtml desc) }
    else none

/-- `extraire_offres_rss` on an already-parsed list of feed entries (feed
fetching/parsing is the external capability; a whole-feed failure yields an
empty entry list). -/
def extraire_offres_rss (stripHtml : String → String) (entries : List Entry) : List Offre :=
  entries.filterMap (process_rss_entry stripHtml)

/-! ## Markup extraction (`extraire_offres_html`) -/

/-- A markup source as the extraction code consumes it: its declared name and
URL (the CSS selectors configure the external select capability and are not
needed beyond the fields modelled on `Item`). -/
structure SourceHtml where
  nom : String
  url : String
deriving DecidableEq, Repr

/-- What the per-item selectors produced for one container node:
`none` = selector matched no element; for the link element,
`some none` = an element without an `href` attribute (on which
`link_el.get("href")` is `None` and `None.strip()` raises), and
`some (some h)` = an element with `href` value `h`. The text fields hold the
element's `get_text(" ", strip=True)` result. -/
structure Item where
  title_el : Option String
  link_el : Option (Option String)
  date_el : Option String
  loc_el : Option String
  desc_el : Option String
deriving DecidableEq, Repr

/-- The per-item body of `extraire_offres_html`'s loop. `urljoin` is the
external `urllib.parse.urljoin`; `stripHtml` as in the feed path. Returns
`none` when the item is skipped: by the `AttributeError` on a link element
without `href` (caught by the per-item `except: continue`) or by a filter
`continue`. -/
def process_html_item (urljoin : String → String → String)
    (stripHtml : String → String) (src : SourceHtml) (it : Item) : Option Offre :=
  match it.link_el with
  | some none => none
  | le =>
    let titre := pyStrip (match it.title_el with | some t => t | none => "")
    let href := match le with
      | some (some h) => pyStrip h
      | _ => ""
    let lien := if href ≠ "" then urljoin src.url href else src.url
    let date_pub := pyStrip (match it.date_el with | some d => d | none => "")
    let lieu := match it.loc_el with | some l => l | none => ""
    let description := truncate (stripHtml (match it.desc_el with | some d => d | none => ""))
    let blob := titre ++ " " ++ description ++ " " ++ lieu
    if !match_keywords blob then none
    else if match_zone blob || match_duree blob
        || source_name_allowlist.any (fun p => p.data.isPrefixOf (pyLower src.nom).data) then
      some { date := date_pub, organisation := src.nom,
             titre := pyOr titre "Titre non disponible",
             lieu := pyOr lieu "Non précisé", lien := lien,
             description := pyOr description "—" }
    else none

/-- `extraire_offres_html` on the list of container nodes the selector
found (`soup.select(...)[:30]`). -/
def extraire_offres_html (urljoin : String → String → String)
    (stripHtml : String → String) (src : SourceHtml) (items : List Item) : List Offre :=
  (items.take 30).filterMap (process_html_item urljoin stripHtml src)

/-! ## Deduplication against the seen store (`dedupe_and_new_only`) -/

/-- The loop of `dedupe_and_new_only`, with the in-run `uniques` set carried
as an accumulator: the key is the stripped link; empty or already-collected
keys are skipped; keys are collected before the seen-set test; only postings
whose key is not in `seen` are kept. -/
def dedupe_go (seen : Finset String) : List Offre → List String → List Offre
  | [], _ => []
  | o :: rest, uniques =>
    let key := pyStrip o.lien
    if key = "" ∨ key ∈ uniques then dedupe_go seen rest uniques
    else if key ∈ seen then dedupe_go seen rest (key :: uniques)
    else o :: dedupe_go seen rest (key :: uniques)

/-- `dedupe_and_new_only(offres)` with the loaded seen set `self.seen`. -/
def dedupe_and_new_only (seen : Finset String) (offres : List Offre) : List Offre :=
  dedupe_go seen offres []

/-- First pass of the specification's `computeNew`, with link identity taken
as the stripped link: keep the first occurrence of each distinct non-empty
(stripped) link, in order. -/
def dedupe_first_pass : List Offre → List String → List Offre
  | [], _ => []
  | o :: rest, ks =>
    let key := pyStrip o.lien
    if key = "" ∨ key ∈ ks then dedupe_first_pass rest ks
    else o :: dedupe_first_pass rest (key :: ks)

/-- The specification's two-pass `computeNew`, with link identity taken as
the stripped link: deduplicate keeping first occurrences, then retain only
postings whose (stripped) link is absent from `seen`. -/
def computeNew_spec (seen : Finset String) (offres : List Offre) : List Offre :=
  (dedupe_first_pass offres []).filter (fun o => !decide (pyStrip o.lien ∈ seen))

/-- The claim's `computeNew` read literally, with link identity the raw link
string: one posting per distinct non-empty link, first occurrence kept, then
those whose link is absent from `seen`. Stated for comparison with the
code's `dedupe_and_new_only`. -/
def computeNew_claimed (seen : Finset String) (offres : List Offre) : List Offre :=
  (dedupe_raw_pass offres []).filter (fun o => !decide (o.lien ∈ seen))
where
  dedupe_raw_pass : List Offre → List String → List Offre
    | [], _ => []
    | o :: rest, ks =>
      if o.lien = "" ∨ o.lien ∈ ks then dedupe_raw_pass rest ks
      else o :: dedupe_raw_pass rest (o.lien :: ks)

/-! ## Priority ranking (`sort_prioritaires_first`) -/

/-- The first component of the Python sort key:
`0 if self.is_prioritaire(f"{o['titre']} {o['description']}") else 1`. -/
def prioBit (o : Offre) : Nat :=
  if is_prioritaire (o.titre ++ " " ++ o.description) then 0 else 1

/-- Strict code-point comparison of two characters, as Python compares the
characters of strings (`Char`'s order is the order of its scalar values). -/
def charLtB (a b : Char) : Bool := decide (a < b)

/-- Lexicographic strict comparison of character lists: Python's `<` on
strings. -/
def listLexLt : List Char → List Char → Bool
  | [], [] => false
  | [], _ :: _ => true
  | _ :: _, [] => false
  | a :: as, b :: bs => charLtB a b || (a == b && listLexLt as bs)

/-- Non-strict lexicographic comparison: Python's `<=` on strings. -/
def listLexLe (a b : List Char) : Bool := listLexLt a b || a == b

/-- Python's tuple comparison on the sort key
`(prioBit, organisation, titre)`. -/
def keyLE (a b : Offre) : Bool :=
  decide (prioBit a < prioBit b) ||
  (prioBit a == prioBit b &&
    (listLexLt a.organisation.data b.organisation.data ||
      (a.organisation == b.organisation && listLexLe a.titre.data b.titre.data)))

/-- `sort_prioritaires_first`: Python's `sorted` is a stable sort by the
key above; it is modelled by `List.mergeSort`, which is also stable, so the
two agree on every input. -/
def sort_prioritaires_first (offres : List Offre) : List Offre :=
  offres.mergeSort keyLE

/-! ## Telegram chunking (`chunk_telegram`) -/

/-- Line-boundary characters of `str.splitlines`. -/
def isLineBreak (c : Char) : Bool :=
  c == '\n' || c == '\r' || c == '\x0b' || c == '\x0c' ||
  c == '\x1c' || c == '\x1d' || c == '\x1e' || c == '\x85' ||
  c == ' ' || c == ' '

/-- One step of `str.splitlines(keepends=True)` consumed by a right fold:
a break character opens a new line ending at that character, with `\r`
merging into a directly following `\n` line; other characters extend the
first line of the remainder. -/
def slStep (c : Char) (acc : List (List Char)) : List (List Char) :=
  if isLineBreak c then
    if c == '\r' then
      match acc with
      | l :: ls => if l.head? == some '\n' then ('\r' :: l) :: ls else ['\r'] :: l :: ls
      | [] => [['\r']]
    else [c] :: acc
  else
    match acc with
    | [] => [[c]]
    | l :: ls => (c :: l) :: ls

/-- `text.splitlines(True)`: the lines of `cs` with their terminators
kept. -/
def splitlinesKeep (cs : List Char) : List (List Char) := cs.foldr slStep []

/-- The loop of `chunk_telegram`, with Python's `buf` list of lines and its
running `size` carried as accumulators; each emitted group is one part
(`"".join(buf)`). -/
def chunkGroups (limit : Nat) : List (List Char) → List (List Char) → Nat → List (List (List Char))
  | [], buf, _ => if buf.isEmpty then [] else [buf]
  | line :: rest, buf, size =>
    if size + line.length > limit then buf :: chunkGroups limit rest [line] line.length
    else chunkGroups limit rest (buf ++ [line]) (size + line.length)

/-- `chunk_telegram(text, limit)`. -/
def chunk_telegram (text : String) (limit : Nat := 4096) : List String :=
  (chunkGroups limit (splitlinesKeep text.data) [] 0).map (fun g => ⟨g.flatten⟩)

/-! ## Resilient fetch (`safe_get`) -/

/-- An HTTP response as `requests.get` returns it: status code and body. -/
structure Response where
  status : Nat
  body : String
deriving DecidableEq, Repr

/-- The error a failed attempt produces: the `HTTPError` that
`raise_for_status` raises on a 4xx/5xx response, or the transport exception
`requests.get` itself raised (identified by a code). -/
inductive FetchErr where
  | httpError (r : Response)
  | transportError (code : Nat)
deriving DecidableEq, Repr

/-- The network environment: what attempt number `a` returns when the GET is
issued — a response, or a transport exception. -/
def FetchEnv : Type := Nat → Except Nat Response

/-- `Response.raise_for_status` raises exactly for 4xx and 5xx status
codes (the `requests` library's documented contract). -/
def raise_for_status_bad (r : Response) : Bool :=
  decide (400 ≤ r.status) && decide (r.status < 600)

/-- Whether attempt `a` fails: a transport exception, or a response on which
`raise_for_status` raises. -/
def attemptFails (env : FetchEnv) (a : Nat) : Bool :=
  match env a with
  | .error _ => true
  | .ok r => raise_for_status_bad r

/-- The response of attempt `a` (meaningful when the attempt did not raise a
transport exception). -/
def envResp (env : FetchEnv) (a : Nat) : Response :=
  match env a with
  | .ok r => r
  | .error _ => ⟨0, ""⟩

/-- The error attempt `a` stores into `err` when it fails. -/
def attemptErrO (env : FetchEnv) (a : Nat) : Option FetchErr :=
  match env a with
  | .error c => some (.transportError c)
  | .ok r => if raise_for_status_bad r then some (.httpError r) else none

/-- The loop of `safe_get` over the remaining attempt numbers, tracking the
last error, the sleeps performed so far (in tenths of a second:
`time.sleep(1.5 * attempt)` is recorded as `15 * attempt`) and the attempts
issued so far. When the list is exhausted the final `raise err` fires. -/
def safe_get_go (env : FetchEnv) :
    List Nat → Option FetchErr → List Nat → List Nat →
    Except (Option FetchErr) Response × List Nat × List Nat
  | [], last, sleeps, atts => (.error last, sleeps, atts)
  | a :: rest, _, sleeps, atts =>
    match env a with
    | .error c => safe_get_go env rest (some (.transportError c)) (sleeps ++ [15 * a]) (atts ++ [a])
    | .ok r =>
      if raise_for_status_bad r then
        safe_get_go env rest (some (.httpError r)) (sleeps ++ [15 * a]) (atts ++ [a])
      else (.ok r, sleeps, atts ++ [a])

/-- `safe_get(url, max_retries=mr)`: the loop
`for attempt in range(1, max_retries + 1)`. Returns the result (a response,
or the propagated last error), the sleeps performed, and the attempts
issued. -/
def safe_get (env : FetchEnv) (max_retries : Nat) :
    Except (Option FetchErr) Response × List Nat × List Nat :=
  safe_get_go env (List.range' 1 max_retries) none [] []

/-- The claim's notion of a successful attempt: a 2xx status. -/
def is2xx (s : Nat) : Bool := decide (200 ≤ s) && decide (s < 300)

/-! ## Seen-link store (`_load_seen` / `_save_seen`) -/

/-- `_load_seen`: `file_exists` is `os.path.exists(self.seen_path)`;
`readParse` is the outcome of `open` + `json.load` (the external filesystem
and JSON capabilities), `.error` when either raises. Any failure yields the
empty set. -/
def load_seen (file_exists : Bool) (readParse : Except String (List String)) : Finset String :=
  if file_exists then
    match readParse with
    | .ok links => links.toFinset
    | .error _ => ∅
  else ∅

/-- `_save_seen`: the file content written, `json.dump(sorted(list(self.seen)))`
— the elements of the seen set in sorted order. -/
def save_seen (seen : Finset String) : List String :=
  seen.sort (· ≤ ·)

/-! ## Notification assembly and the orchestration tail (`executer_veille`) -/

/-- Outcome of one `requests.post` to the Telegram API: `ok`, a non-ok HTTP
response, or a transport exception. `_telegram_post` catches all of these
and never propagates. -/
inductive PostOutcome where
  | ok
  | httpErr (code : Nat) (body : String)
  | exn (code : Nat)
deriving DecidableEq, Repr

/-- The Telegram side of the environment: the two credentials as read from
the process environment, and the transport's outcome for each posted text. -/
structure TelegramEnv where
  token : Option String
  chat_id : Option String
  post : String → PostOutcome

/-- Python truthiness of an optional string credential: falsy when unset or
empty. -/
def credFalsy (o : Option String) : Bool :=
  match o with
  | none => true
  | some s => s == ""

/-- Two-digit formatting `f"{i:02d}"` for the preview numbering. -/
def fmt2 (i : Nat) : String :=
  if i < 10 then "0" ++ toString i else toString i

/-- One preview line of the notification body, as `send_telegram` builds
it. -/
def offre_line (io : Nat × Offre) : String :=
  let i := io.1
  let o := io.2
  let prio := if is_prioritaire (o.titre ++ " " ++ o.description) then "🔥" else "📄"
  let org := pyStrip o.organisation
  let lieu := pyStrip o.lieu
  let titre := pyStrip o.titre
  let lien := pyStrip o.lien
  let line := fmt2 i ++ ". " ++ prio ++ " " ++ titre ++ " — " ++ org
  let line := if lieu ≠ "" ∧ pyLower lieu ≠ "non précisé" then line ++ " (" ++ lieu ++ ")" else line
  line ++ "\n" ++ lien ++ "\n"

/-- The notification payload for a non-empty posting list: header, up to 15
numbered preview lines, and a trailer when more postings exist. -/
def telegram_payload (today : String) (offres : List Offre) : String :=
  let head := "🎯 Veille du " ++ today ++ " — " ++ toString offres.length ++ " nouvelle(s) offre(s)\n"
  let lines := (List.enumFrom 1 (offres.take 15)).map offre_line
  let trailer := if offres.length > 15 then
    ["… et " ++ toString (offres.length - 15) ++ " autres. Fichier JSON du jour dans les artefacts.\n"]
    else []
  String.join (head :: (lines ++ trailer))

/-- `send_telegram`: a no-op without credentials; otherwise posts the
"no new postings" message or the chunked payload, recording each posted
part with its (always-caught) outcome. -/
def send_telegram (env : TelegramEnv) (today : String) (offres : List Offre) :
    List (String × PostOutcome) :=
  if credFalsy env.token || credFalsy env.chat_id then []
  else if offres.isEmpty then
    let msg := "📭 Veille du " ++ today ++ " — aucune nouvelle offre pertinente."
    [(msg, env.post msg)]
  else
    (chunk_telegram (telegram_payload today offres) 4096).map (fun part => (part, env.post part))

/-- What a run leaves behind after the collection phase: the dated archive
record (`save_of_day`), the persisted seen file (`_save_seen`), the Telegram
posts attempted with their outcomes, and the ranked new postings. -/
structure RunOutput where
  archive : Option (String × Nat × List Offre)
  seen_file : List String
  posts : List (String × PostOutcome)
  nouvelles : List Offre
deriving Repr

/-- The tail of `executer_veille` after collection: filter to new postings,
rank, write the dated archive, add every notified link to the seen set and
persist it, then send the Telegram notification (whose failures are caught
inside `_telegram_post` and cannot reach the earlier steps). -/
def executer_veille_post (env : TelegramEnv) (today : String)
    (seen : Finset String) (toutes : List Offre) : RunOutput :=
  let nouvelles := sort_prioritaires_first (dedupe_and_new_only seen toutes)
  let seen2 := nouvelles.foldl (fun s o => insert o.lien s) seen
  { archive := some (today, nouvelles.length, nouvelles)
    seen_file := save_seen seen2
    posts := send_telegram env today nouvelles
    nouvelles := nouvelles }

/-! ## Claim-side rule definitions (stated from the specification's words,
for comparison with the code's behaviour) -/

/-- The acceptance rule the feed path actually implements, stated flat:
non-empty link, a subject keyword, and geography or duration or a signal
token in the text. -/
def rss_accept_rule (e : Entry) : Bool :=
  let titre := pyStrip e.title
  let desc := pyOr e.summary e.description
  let texte := pyLower (titre ++ " " ++ desc)
  (pyStrip e.link != "") && match_keywords texte &&
    (match_zone texte || match_duree texte ||
      rss_signal_tokens.any (fun t => strContains t texte))

/-- The acceptance rule the markup path actually implements, stated flat:
a subject keyword in title+description+location, and geography or duration
or an allowlisted source-name prefix. -/
def html_accept_rule (stripHtml : String → String) (src : SourceHtml) (it : Item) : Bool :=
  let titre := pyStrip (match it.title_el with | some t => t | none => "")
  let description := truncate (stripHtml (match it.desc_el with | some d => d | none => ""))
  let lieu := match it.loc_el with | some l => l | none => ""
  let blob := titre ++ " " ++ description ++ " " ++ lieu
  match_keywords blob && (match_zone blob || match_duree blob ||
    source_name_allowlist.any (fun p => p.data.isPrefixOf (pyLower src.nom).data))

/-- The single three-tier rule the claim asserts governs both paths:
subject keyword, and geography or duration or a signal token in the text or
an allowlisted source-name prefix. -/
def claimed_unified_accept (sourceName text : String) : Bool :=
  match_keywords text && (match_zone text || match_duree text ||
    rss_signal_tokens.any (fun t => strContains t (pyLower text)) ||
    source_name_allowlist.any (fun p => p.data.isPrefixOf (pyLower sourceName).data))

/-! ## Concrete fixtures for counterexamples and witnesses -/

/-- A concrete `urljoin` capability for concrete evaluations (base ++ ref
keeps non-emptiness, which is all the theorems use of it). -/
def uj0 : String → String → String := fun b r => b ++ r

/-- A concrete markup-stripping capability: the identity (plain text is its
own text). -/
def sh0 : String → String := fun s => s

/-- A markup source whose name starts with no allowlisted prefix. -/
def srcIfri : SourceHtml := ⟨"IFRI", "https://www.ifri.org/fr/recrutement"⟩

/-- A markup item whose text holds a subject keyword and the signal token
"nato" but no geography and no duration term. -/
def itemNato : Item := ⟨some "stage nato", some (some "/offre1"), none, none, none⟩

/-- The same text as a feed entry. -/
def entryNato : Entry := ⟨"stage nato", "https://x/e1", "", "", "", ""⟩

/-- A markup source whose name starts with the allowlisted prefix "osce". -/
def srcOsce : SourceHtml := ⟨"OSCE Jobs HTML", "https://jobs.osce.org/"⟩

/-- A markup item whose link selector found an element without an `href`
attribute. -/
def itemNoHrefAttr : Item := ⟨some "stage france", some none, none, none, none⟩

/-- A markup item whose link selector found no element at all. -/
def itemNoLinkEl : Item := ⟨some "stage france", none, none, none, none⟩

/-- A second href-less item from the same source, with a different title. -/
def itemNoLinkEl2 : Item := ⟨some "internship france", none, none, none, none⟩

/-- A posting whose link carries surrounding whitespace. -/
def oC2 : Offre := ⟨"", "RSS", "t", "", " x ", ""⟩

/-- A posting whose link carries leading whitespace. -/
def oC3 : Offre := ⟨"", "RSS", "t", "", " x", ""⟩

/-- Two postings with identical links, for the dedupe witnesses. -/
def oD1 : Offre := ⟨"", "RSS", "t1", "", "https://a", ""⟩

/-- Second posting sharing `oD1`'s link. -/
def oD2 : Offre := ⟨"", "RSS", "t2", "", "https://a", ""⟩

/-- The non-priority posting "Zeta" of the ranking example. -/
def offZeta : Offre := ⟨"", "Org", "Zeta", "", "https://z", ""⟩

/-- The priority posting "Alpha" of the ranking example (its description
holds the priority term "iran"). -/
def offAlpha : Offre := ⟨"", "Org", "Alpha", "", "https://a", "iran"⟩

/-- The non-priority posting "Beta" of the ranking example. -/
def offBeta : Offre := ⟨"", "Org", "Beta", "", "https://b", ""⟩

/-- A network environment answering every attempt with a 304 response. -/
def env304 : FetchEnv := fun _ => .ok ⟨304, "nm"⟩

/-- A network environment failing the first attempt with a transport
exception and answering the second with a 200 response. -/
def envC6 : FetchEnv := fun a => if a = 1 then .error 7 else .ok ⟨200, "hello"⟩

/-- The 5000-character counterexample text for chunking: lines of 900, 3300
and 800 characters. -/
def c5_bad_chars : List Char :=
  List.replicate 899 'a' ++ '\n' :: (List.replicate 3299 'b' ++ '\n' :: List.replicate 800 'c')

/-- The counterexample text as a string. -/
def c5_bad_text : String := ⟨c5_bad_chars⟩

/-- A 5000-character witness text for chunking: lines of 4000 and 1000
characters. -/
def c5_wit_chars : List Char :=
  List.replicate 3999 'a' ++ '\n' :: List.replicate 1000 'b'

/-- The witness text as a string. -/
def c5_wit_text : String := ⟨c5_wit_chars⟩

/-- A Telegram environment with credentials whose transport always
succeeds. -/
def tgOk : TelegramEnv := ⟨some "tok", some "chat", fun _ => .ok⟩

/-- A Telegram environment with credentials whose transport always raises. -/
def tgFail : TelegramEnv := ⟨some "tok", some "chat", fun _ => .exn 13⟩

/-! ## Lemmas about the deduplication loop -/

/-- The fold of `dedupe_and_new_only` computes the specification's two
passes: first-occurrence deduplication by stripped link, then the seen-set
filter. -/
theorem dedupe_go_eq_first_filter (seen : Finset String) :
    ∀ (offres : List Offre) (ks : List String),
      dedupe_go seen offres ks =
        (dedupe_first_pass offres ks).filter (fun o => !decide (pyStrip o.lien ∈ seen))
  | [], _ => rfl
  | o :: rest, ks => by
    simp only [dedupe_go, dedupe_first_pass]
    by_cases h1 : pyStrip o.lien = "" ∨ pyStrip o.lien ∈ ks
    · rw [if_pos h1, if_pos h1]
      exact dedupe_go_eq_first_filter seen rest ks
    · rw [if_neg h1, if_neg h1]
      by_cases h2 : pyStrip o.lien ∈ seen
      · rw [if_pos h2, List.filter_cons, if_neg (by simp [h2])]
        exact dedupe_go_eq_first_filter seen rest (pyStrip o.lien :: ks)
      · rw [if_neg h2, List.filter_cons, if_pos (by simp [h2])]
        rw [dedupe_go_eq_first_filter seen rest (pyStrip o.lien :: ks)]

/-- Every posting the deduplication returns comes from the input list. -/
theorem dedupe_go_subset (seen : Finset String) :
    ∀ (offres : List Offre) (ks : List String) (o : Offre),
      o ∈ dedupe_go seen offres ks → o ∈ offres
  | [], _, _, h => by cases h
  | o :: rest, ks, x, h => by
    simp only [dedupe_go] at h
    by_cases h1 : pyStrip o.lien = "" ∨ pyStrip o.lien ∈ ks
    · rw [if_pos h1] at h
      exact List.mem_cons_of_mem o (dedupe_go_subset seen rest ks x h)
    · rw [if_neg h1] at h
      by_cases h2 : pyStrip o.lien ∈ seen
      · rw [if_pos h2] at h
        exact List.mem_cons_of_mem o (dedupe_go_subset seen rest _ x h)
      · rw [if_neg h2] at h
        rcases List.mem_cons.mp h with h | h
        · exact h ▸ List.mem_cons_self x rest
        · exact List.mem_cons_of_mem o (dedupe_go_subset seen rest _ x h)

/-- The postings the deduplication returns have pairwise distinct,
non-empty stripped links, none already collected and none in the seen
set. -/
theorem dedupe_go_keys (seen : Finset String) :
    ∀ (offres : List Offre) (ks : List String),
      ((dedupe_go seen offres ks).map (fun o => pyStrip o.lien)).Nodup ∧
      ∀ o ∈ dedupe_go seen offres ks,
        pyStrip o.lien ∉ ks ∧ pyStrip o.lien ≠ "" ∧ pyStrip o.lien ∉ seen
  | [], _ => by simp [dedupe_go]
  | o :: rest, ks => by
    simp only [dedupe_go]
    by_cases h1 : pyStrip o.lien = "" ∨ pyStrip o.lien ∈ ks
    · rw [if_pos h1]
      exact dedupe_go_keys seen rest ks
    · rw [if_neg h1]
      push_neg at h1
      by_cases h2 : pyStrip o.lien ∈ seen
      · rw [if_pos h2]
        obtain ⟨hnd, hmem⟩ := dedupe_go_keys seen rest (pyStrip o.lien :: ks)
        refine ⟨hnd, fun x hx => ?_⟩
        obtain ⟨hk, he, hs⟩ := hmem x hx
        exact ⟨fun hc => hk (List.mem_cons_of_mem _ hc), he, hs⟩
      · rw [if_neg h2]
        obtain ⟨hnd, hmem⟩ := dedupe_go_keys seen rest (pyStrip o.lien :: ks)
        constructor
        · refine List.nodup_cons.mpr ⟨?_, hnd⟩
          intro hc
          obtain ⟨x, hx, hxe⟩ := List.mem_map.mp hc
          exact (hmem x hx).1 (hxe ▸ List.mem_cons_self _ _)
        · intro x hx
          rcases List.mem_cons.mp hx with h | h
          · subst h
            exact ⟨h1.2, h1.1, h2⟩
          · obtain ⟨hk, he, hs⟩ := hmem x h
            exact ⟨fun hc => hk (List.mem_cons_of_mem _ hc), he, hs⟩

/-- If a posting's stripped link is non-empty, unseen and not yet
collected, that link appears among the stripped links of the
deduplication's output. -/
theorem dedupe_go_key_covered (seen : Finset String) :
    ∀ (offres : List Offre) (ks : List String) (o : Offre),
      o ∈ offres → pyStrip o.lien ≠ "" → pyStrip o.lien ∉ seen → pyStrip o.lien ∉ ks →
      pyStrip o.lien ∈ (dedupe_go seen offres ks).map (fun x => pyStrip x.lien)
  | [], _, _, ho, _, _, _ => by cases ho
  | p :: rest, ks, o, ho, he, hs, hk => by
    simp only [dedupe_go]
    by_cases hp1 : pyStrip p.lien = "" ∨ pyStrip p.lien ∈ ks
    · rw [if_pos hp1]
      rcases List.mem_cons.mp ho with h | h
      · subst h
        rcases hp1 with h | h
        · exact absurd h he
        · exact absurd h hk
      · exact dedupe_go_key_covered seen rest ks o h he hs hk
    · rw [if_neg hp1]
      by_cases heq : pyStrip o.lien = pyStrip p.lien
      · rw [if_neg (heq ▸ hs)]
        simp [heq]
      · have hks : pyStrip o.lien ∉ pyStrip p.lien :: ks := by
          intro hc
          rcases List.mem_cons.mp hc with h | h
          · exact heq h
          · exact hk h
        by_cases hp2 : pyStrip p.lien ∈ seen
        · rw [if_pos hp2]
          rcases List.mem_cons.mp ho with h | h
          · subst h; exact absurd hp2 hs
          · exact dedupe_go_key_covered seen rest (pyStrip p.lien :: ks) o h he hs hks
        · rw [if_neg hp2]
          rcases List.mem_cons.mp ho with h | h
          · subst h; exact absurd rfl heq
          · simp only [List.map_cons, List.mem_cons]
            exact Or.inr (dedupe_go_key_covered seen rest (pyStrip p.lien :: ks) o h he hs hks)

/-- When every input posting's stripped link is empty, seen, or already
collected, the deduplication returns nothing. -/
theorem dedupe_go_nil (seen : Finset String) :
    ∀ (offres : List Offre) (ks : List String),
      (∀ o ∈ offres, pyStrip o.lien = "" ∨ pyStrip o.lien ∈ seen ∨ pyStrip o.lien ∈ ks) →
      dedupe_go seen offres ks = []
  | [], _, _ => rfl
  | o :: rest, ks, h => by
    simp only [dedupe_go]
    have ho := h o (List.mem_cons_self o rest)
    by_cases h1 : pyStrip o.lien = "" ∨ pyStrip o.lien ∈ ks
    · rw [if_pos h1]
      exact dedupe_go_nil seen rest ks (fun x hx => h x (List.mem_cons_of_mem o hx))
    · rw [if_neg h1]
      push_neg at h1
      have h2 : pyStrip o.lien ∈ seen := by
        rcases ho with h | h | h
        · exact absurd h h1.1
        · exact h
        · exact absurd h h1.2
      rw [if_pos h2]
      refine dedupe_go_nil seen rest _ (fun x hx => ?_)
      rcases h x (List.mem_cons_of_mem o hx) with h | h | h
      · exact Or.inl h
      · exact Or.inr (Or.inl h)
      · exact Or.inr (Or.inr (List.mem_cons_of_mem _ h))

/-- Membership in the run's seen-set update: the pre-run set plus the links
of the updated postings. -/
theorem mem_foldl_insert (x : String) :
    ∀ (l : List Offre) (s : Finset String),
      (x ∈ l.foldl (fun s o => insert o.lien s) s) ↔ (x ∈ s ∨ x ∈ l.map (fun o => o.lien))
  | [], s => by simp
  | o :: rest, s => by
    rw [List.foldl_cons, mem_foldl_insert x rest (insert o.lien s)]
    simp [Finset.mem_insert]
    tauto

/-! ## Claim C2 -/

/-- Claim C2 (corrected: link identity is the whitespace-stripped link):
`dedupe_and_new_only` equals the specification's two passes — deduplicate by
stripped link keeping the first occurrence of each distinct non-empty
stripped link in the original order, then retain only postings whose
stripped link is absent from the seen set — and its output has pairwise
distinct stripped links. -/
theorem c2_computeNew_two_pass (seen : Finset String) (offres : List Offre) :
    dedupe_and_new_only seen offres = computeNew_spec seen offres ∧
    ((dedupe_and_new_only seen offres).map (fun o => pyStrip o.lien)).Nodup :=
  ⟨dedupe_go_eq_first_filter seen offres [], (dedupe_go_keys seen offres []).1⟩

/-- Claim C2, counterexample to the literal statement: a posting whose link
is the non-empty string " x " (stripped key "x") with seen set {"x"}. Read
with raw links, the claim keeps it (its link " x " is non-empty, distinct
and absent from the seen set); the code drops it, because identity is the
stripped link. -/
theorem c2_counterexample :
    computeNew_claimed {"x"} [oC2] = [oC2] ∧
    oC2.lien ≠ "" ∧ oC2.lien ∉ ({"x"} : Finset String) ∧
    dedupe_and_new_only {"x"} [oC2] = [] := by
  refine ⟨by decide, by decide, by decide, by decide⟩

/-! ## Claim C3 -/

/-- Claim C3 (corrected: stated for postings whose links carry no
surrounding whitespace, as both extractors produce them): after adding the
links of every returned posting to the seen set — the run's update — a
second run over the same candidates returns nothing. -/
theorem c3_rerun_empty (seen : Finset String) (offres : List Offre)
    (htrim : ∀ o ∈ offres, pyStrip o.lien = o.lien) :
    dedupe_and_new_only
      ((dedupe_and_new_only seen offres).foldl (fun s o => insert o.lien s) seen)
      offres = [] := by
  apply dedupe_go_nil
  intro o ho
  by_cases hk : pyStrip o.lien = ""
  · exact Or.inl hk
  refine Or.inr (Or.inl ?_)
  rw [mem_foldl_insert]
  by_cases hs : pyStrip o.lien ∈ seen
  · exact Or.inl hs
  · refine Or.inr ?_
    have hcov := dedupe_go_key_covered seen offres [] o ho hk hs (by simp)
    obtain ⟨x, hx, hxe⟩ := List.mem_map.mp hcov
    have hxoff := dedupe_go_subset seen offres [] x hx
    rw [htrim x hxoff] at hxe
    exact List.mem_map.mpr ⟨x, hx, hxe⟩

/-- Witness for C3's theorem: duplicate candidates with a clean link, empty
initial seen set. -/
theorem c3_rerun_empty_witness :
    dedupe_and_new_only
      ((dedupe_and_new_only (∅ : Finset String) [oD1, oD2]).foldl
        (fun s o => insert o.lien s) (∅ : Finset String))
      [oD1, oD2] = [] :=
  c3_rerun_empty ∅ [oD1, oD2] (by decide)

/-- Claim C3, counterexample to the literal statement: a posting whose link
" x" carries leading whitespace. The run's update adds the raw link " x" to
the seen set, but the dedupe key is the stripped "x", so the second run
returns the posting again instead of nothing. -/
theorem c3_counterexample :
    dedupe_and_new_only
      ((dedupe_and_new_only (∅ : Finset String) [oC3]).foldl
        (fun s o => insert o.lien s) (∅ : Finset String))
      [oC3] = [oC3] ∧ ([oC3] : List Offre) ≠ [] := by
  refine ⟨by decide, by decide⟩

/-! ## Claim C7 -/

/-- Claim C7 (confirmed): the run persists the pre-run seen set plus the
links of every notified posting; loading the persisted file yields a
superset of the pre-run set, and exactly the pre-run links plus the new
ones — no link is evicted. -/
theorem c7_seen_monotone (env : TelegramEnv) (today : String) (seen : Finset String)
    (toutes : List Offre) (x : String) (hx : x ∈ seen) :
    x ∈ load_seen true (.ok (executer_veille_post env today seen toutes).seen_file) ∧
    (∀ y : String,
      y ∈ load_seen true (.ok (executer_veille_post env today seen toutes).seen_file) ↔
        (y ∈ seen ∨ y ∈ (executer_veille_post env today seen toutes).nouvelles.map (fun o => o.lien))) := by
  have hchar : ∀ y : String,
      y ∈ load_seen true (.ok (executer_veille_post env today seen toutes).seen_file) ↔
        (y ∈ seen ∨ y ∈ (executer_veille_post env today seen toutes).nouvelles.map (fun o => o.lien)) := by
    intro y
    show y ∈ (save_seen _).toFinset ↔ _
    rw [List.mem_toFinset]
    unfold save_seen
    rw [Finset.mem_sort]
    exact mem_foldl_insert y _ seen
  exact ⟨(hchar x).mpr (Or.inl hx), hchar⟩

/-- Witness for C7's theorem. -/
theorem c7_seen_monotone_witness :
    ("a" : String) ∈ load_seen true
      (.ok (executer_veille_post tgOk "2026-02-03" {"a"} [oD1]).seen_file) :=
  (c7_seen_monotone tgOk "2026-02-03" {"a"} [oD1] "a" (by decide)).1

/-! ## Claim C8 -/

/-- Claim C8 (confirmed): `_load_seen` returns the empty set when the state
file is missing and when reading or parsing it raises, and otherwise the
set of link strings stored in the file; it never fails the run (it is a
total function into `Finset String`). -/
theorem c8_load_seen_total :
    (∀ rp : Except String (List String), load_seen false rp = ∅) ∧
    (∀ e : String, load_seen true (.error e) = ∅) ∧
    (∀ links : List String, load_seen true (.ok links) = links.toFinset) :=
  ⟨fun _ => rfl, fun _ => rfl, fun _ => rfl⟩

/-! ## Claim C9 -/

/-- Claim C9 (confirmed): the archive record and the persisted seen file do
not depend on the notification environment (credentials present or not,
transport succeeding or raising), and both are always written — the archive
is always `some` record of the ranked new postings, and the seen file is
always the persisted update of the pre-run set. Notification runs after
both and its failures are caught inside `_telegram_post`. -/
theorem c9_notification_isolated (today : String) (seen : Finset String)
    (toutes : List Offre) (env1 env2 : TelegramEnv) :
    (executer_veille_post env1 today seen toutes).archive
      = (executer_veille_post env2 today seen toutes).archive ∧
    (executer_veille_post env1 today seen toutes).seen_file
      = (executer_veille_post env2 today seen toutes).seen_file ∧
    (executer_veille_post env1 today seen toutes).archive
      = some (today, (sort_prioritaires_first (dedupe_and_new_only seen toutes)).length,
          sort_prioritaires_first (dedupe_and_new_only seen toutes)) ∧
    (executer_veille_post env1 today seen toutes).seen_file
      = save_seen ((sort_prioritaires_first (dedupe_and_new_only seen toutes)).foldl
          (fun s o => insert o.lien s) seen) :=
  ⟨rfl, rfl, rfl, rfl⟩

/-! ## Claim C1 -/

/-- Shape of a two-guard keep/skip decision: kept iff both guards pass. -/
theorem isSome_if_filter {α : Type} (a b : Bool) (x : α) :
    (if !a then none else if b then some x else (none : Option α)).isSome = (a && b) := by
  cases a <;> cases b <;> simp

/-- Shape of a three-guard keep/skip decision with a leading propositional
skip. -/
theorem isSome_guard3 {α : Type} (c : Prop) [Decidable c] (a b : Bool) (x : α) :
    (if c then none else if !a then none else if b then some x else (none : Option α)).isSome
      = (!decide c && a && b) := by
  by_cases h : c <;> cases a <;> cases b <;> simp [h]

/-- String disequality test against the empty string, as a decide. -/
theorem bne_empty_eq (s : String) : (s != "") = !decide (s = "") := by
  by_cases h : s = "" <;> simp [h]

/-- Claim C1 (corrected: the two extraction paths use different third
tiers): a feed entry is kept iff its stripped link is non-empty, its
title+description text matches a subject keyword, and it matches a
geography or duration term or contains a signal token; a markup item whose
field extraction does not raise (its link element, when present, has an
`href`) is kept iff its title+description+location text matches a subject
keyword, and it matches a geography or duration term or its source's name
starts with an allowlisted prefix. -/
theorem c1_per_path_rule (stripHtml : String → String) (e : Entry)
    (urljoin : String → String → String) (src : SourceHtml) (it : Item)
    (hit : it.link_el ≠ some none) :
    (process_rss_entry stripHtml e).isSome = rss_accept_rule e ∧
    (process_html_item urljoin stripHtml src it).isSome = html_accept_rule stripHtml src it := by
  constructor
  · unfold process_rss_entry rss_accept_rule
    rw [bne_empty_eq]
    exact isSome_guard3 _ _ _ _
  · obtain ⟨te, le, de, loe, dse⟩ := it
    match le with
    | some none => exact absurd rfl hit
    | none =>
      unfold process_html_item html_accept_rule
      exact isSome_if_filter _ _ _
    | some (some href) =>
      unfold process_html_item html_accept_rule
      exact isSome_if_filter _ _ _

/-- Witness for C1's theorem, at a feed entry and a markup item with an
`href`. -/
theorem c1_per_path_rule_witness :
    (process_rss_entry sh0 entryNato).isSome = rss_accept_rule entryNato ∧
    (process_html_item uj0 sh0 srcIfri itemNato).isSome = html_accept_rule sh0 srcIfri itemNato :=
  c1_per_path_rule sh0 entryNato uj0 srcIfri itemNato (by decide)

/-- Claim C1, counterexample to the literal statement: the text
"stage nato" matches a subject keyword and carries the signal token "nato"
but no geography or duration term, and the source "IFRI" has no allowlisted
name prefix. The claim's single three-tier rule accepts it, and the feed
path does keep the same text — but the markup path drops it, because the
signal-token tier exists only in the feed path. -/
theorem c1_counterexample :
    claimed_unified_accept "IFRI" ("stage nato" ++ " " ++ "" ++ " " ++ "") = true ∧
    extraire_offres_html uj0 sh0 srcIfri [itemNato] = [] ∧
    extraire_offres_rss sh0 [entryNato] =
      [⟨"", "RSS", "stage nato", "", "https://x/e1", ""⟩] := by
  refine ⟨by decide, by decide, by decide⟩

/-! ## Lemmas about the lexicographic comparators and the sort key -/

/-- A strictly smaller head decides the list comparison. -/
theorem listLexLt_cons_lt {x y : Char} (h : x < y) (xs ys : List Char) :
    listLexLt (x :: xs) (y :: ys) = true := by
  simp [listLexLt, charLtB, h]

/-- Equal heads reduce the list comparison to the tails. -/
theorem listLexLt_cons_same (x : Char) (xs ys : List Char) :
    listLexLt (x :: xs) (x :: ys) = listLexLt xs ys := by
  simp [listLexLt, charLtB]

/-- The strict list comparison is irreflexive. -/
theorem listLexLt_irrefl : ∀ a : List Char, listLexLt a a = false
  | [] => rfl
  | c :: cs => by rw [listLexLt_cons_same]; exact listLexLt_irrefl cs

/-- The strict list comparison is transitive. -/
theorem listLexLt_trans : ∀ a b c : List Char,
    listLexLt a b = true → listLexLt b c = true → listLexLt a c = true
  | [], [], _, h1, _ => by simp [listLexLt] at h1
  | [], _ :: _, [], _, h2 => by simp [listLexLt] at h2
  | [], _ :: _, _ :: _, _, _ => rfl
  | _ :: _, [], _, h1, _ => by simp [listLexLt] at h1
  | _ :: _, _ :: _, [], _, h2 => by simp [listLexLt] at h2
  | x :: xs, y :: ys, z :: zs, h1, h2 => by
    simp only [listLexLt, charLtB, Bool.or_eq_true, Bool.and_eq_true,
      decide_eq_true_eq, beq_iff_eq] at h1 h2 ⊢
    rcases h1 with h1 | ⟨rfl, h1⟩
    · rcases h2 with h2 | ⟨rfl, h2⟩
      · exact Or.inl (lt_trans h1 h2)
      · exact Or.inl h1
    · rcases h2 with h2 | ⟨rfl, h2⟩
      · exact Or.inl h2
      · exact Or.inr ⟨rfl, listLexLt_trans xs ys zs h1 h2⟩

/-- Lists on which the strict comparison fails both ways are equal. -/
theorem listLexLt_eq_of_not : ∀ a b : List Char,
    listLexLt a b = false → listLexLt b a = false → a = b
  | [], [], _, _ => rfl
  | [], _ :: _, h1, _ => by simp [listLexLt] at h1
  | _ :: _, [], _, h2 => by simp [listLexLt] at h2
  | x :: xs, y :: ys, h1, h2 => by
    by_cases hxy : x = y
    · subst hxy
      rw [listLexLt_cons_same] at h1 h2
      rw [listLexLt_eq_of_not xs ys h1 h2]
    · have hx : ¬ x < y := fun hc => by
        rw [listLexLt_cons_lt hc] at h1; cases h1
      have hy : ¬ y < x := fun hc => by
        rw [listLexLt_cons_lt hc] at h2; cases h2
      exact absurd (le_antisymm (not_lt.mp hy) (not_lt.mp hx)) hxy

/-- The non-strict list comparison is transitive. -/
theorem listLexLe_trans {a b c : List Char}
    (h1 : listLexLe a b = true) (h2 : listLexLe b c = true) : listLexLe a c = true := by
  simp only [listLexLe, Bool.or_eq_true, beq_iff_eq] at h1 h2 ⊢
  rcases h1 with h1 | rfl
  · rcases h2 with h2 | rfl
    · exact Or.inl (listLexLt_trans a b c h1 h2)
    · exact Or.inl h1
  · exact h2

/-- The non-strict list comparison is total. -/
theorem listLexLe_total (a b : List Char) : (listLexLe a b || listLexLe b a) = true := by
  simp only [listLexLe, Bool.or_eq_true, beq_iff_eq]
  by_cases hab : listLexLt a b = true
  · exact Or.inl (Or.inl hab)
  · by_cases hba : listLexLt b a = true
    · exact Or.inr (Or.inl hba)
    · exact Or.inl (Or.inr (listLexLt_eq_of_not a b
        (Bool.not_eq_true _ ▸ hab) (Bool.not_eq_true _ ▸ hba)))

/-- The sort key comparison is transitive. -/
theorem keyLE_trans (a b c : Offre) (h1 : keyLE a b = true) (h2 : keyLE b c = true) :
    keyLE a c = true := by
  simp only [keyLE, Bool.or_eq_true, Bool.and_eq_true, decide_eq_true_eq,
    beq_iff_eq] at h1 h2 ⊢
  rcases h1 with h1 | ⟨hp1, h1⟩
  · rcases h2 with h2 | ⟨hp2, h2⟩
    · exact Or.inl (lt_trans h1 h2)
    · exact Or.inl (hp2 ▸ h1)
  · rcases h2 with h2 | ⟨hp2, h2⟩
    · exact Or.inl (hp1 ▸ h2)
    · refine Or.inr ⟨hp1.trans hp2, ?_⟩
      rcases h1 with h1 | ⟨ho1, h1⟩
      · rcases h2 with h2 | ⟨ho2, h2⟩
        · exact Or.inl (listLexLt_trans _ _ _ h1 h2)
        · exact Or.inl (ho2 ▸ h1)
      · rcases h2 with h2 | ⟨ho2, h2⟩
        · exact Or.inl (ho1 ▸ h2)
        · exact Or.inr ⟨ho1.trans ho2, listLexLe_trans h1 h2⟩

/-- The sort key comparison is total. -/
theorem keyLE_total (a b : Offre) : (keyLE a b || keyLE b a) = true := by
  simp only [keyLE, Bool.or_eq_true, Bool.and_eq_true, decide_eq_true_eq, beq_iff_eq]
  rcases Nat.lt_trichotomy (prioBit a) (prioBit b) with hp | hp | hp
  · exact Or.inl (Or.inl hp)
  · by_cases ho1 : listLexLt a.organisation.data b.organisation.data = true
    · exact Or.inl (Or.inr ⟨hp, Or.inl ho1⟩)
    · by_cases ho2 : listLexLt b.organisation.data a.organisation.data = true
      · exact Or.inr (Or.inr ⟨hp.symm, Or.inl ho2⟩)
      · have ho : a.organisation.data = b.organisation.data :=
          listLexLt_eq_of_not _ _ (Bool.not_eq_true _ ▸ ho1) (Bool.not_eq_true _ ▸ ho2)
        have hos : a.organisation = b.organisation := congrArg String.mk ho
        rcases Bool.or_eq_true _ _ |>.mp (listLexLe_total a.titre.data b.titre.data) with ht | ht
        · exact Or.inl (Or.inr ⟨hp, Or.inr ⟨hos, ht⟩⟩)
        · exact Or.inr (Or.inr ⟨hp.symm, Or.inr ⟨hos.symm, ht⟩⟩)
  · exact Or.inr (Or.inl hp)

/-- The key comparison never moves a non-priority posting ahead of a
priority one: anything key-above a non-priority posting is non-priority. -/
theorem keyLE_prio (a b : Offre) (h : keyLE a b = true) (ha : prioBit a = 1) :
    prioBit b = 1 := by
  rcases Nat.lt_or_ge (prioBit b) 1 with hb | hb
  · exfalso
    have hb0 : prioBit b = 0 := by omega
    simp [keyLE, ha, hb0] at h
  · have : prioBit b ≤ 1 := by
      unfold prioBit
      split <;> simp
    omega

/-! ## Claim C4 -/

/-- Claim C4 (confirmed): `sort_prioritaires_first` is a stable sort of its
input by the key `(0 if priority else 1, organisation, titre)` — it is a
permutation of the input, pairwise ordered by the key comparison, stable
(key-ordered pairs of the input stay in order), everything placed after a
non-priority posting is non-priority (so every priority posting precedes
every non-priority one), it reproduces the Zeta/Alpha/Beta example, and it
is a pure function of its input (hence deterministic). -/
theorem c4_rank_stable_sort (l : List Offre) :
    (sort_prioritaires_first l).Perm l ∧
    (sort_prioritaires_first l).Pairwise (fun a b => keyLE a b = true) ∧
    (∀ a b : Offre, keyLE a b = true → [a, b].Sublist l →
      [a, b].Sublist (sort_prioritaires_first l)) ∧
    (∀ (xs ys : List Offre) (a : Offre), sort_prioritaires_first l = xs ++ a :: ys →
      prioBit a = 1 → ∀ b ∈ ys, prioBit b = 1) ∧
    sort_prioritaires_first [offZeta, offAlpha, offBeta] = [offAlpha, offBeta, offZeta] := by
  refine ⟨List.mergeSort_perm l keyLE,
    List.sorted_mergeSort keyLE_trans keyLE_total l,
    fun a b hab hsub => List.pair_sublist_mergeSort keyLE_trans keyLE_total hab hsub,
    fun xs ys a hdec ha b hb => ?_, ?_⟩
  · have hpair : (xs ++ a :: ys).Pairwise (fun a b => keyLE a b = true) := by
      rw [← hdec]
      exact List.sorted_mergeSort keyLE_trans keyLE_total l
    have hrel : keyLE a b = true :=
      (List.pairwise_cons.mp (List.pairwise_append.mp hpair).2.1).1 b hb
    exact keyLE_prio a b hrel ha
  · have k1 : keyLE offZeta offAlpha = false := by decide
    have k2 : keyLE offAlpha offZeta = true := by decide
    have k3 : keyLE offAlpha offBeta = true := by decide
    have k4 : keyLE offBeta offAlpha = false := by decide
    have k5 : keyLE offZeta offBeta = false := by decide
    have k6 : keyLE offBeta offZeta = true := by decide
    simp [sort_prioritaires_first, List.mergeSort, List.merge, List.splitInTwo,
      k1, k2, k3, k4, k5, k6]

/-- Witness for C4's theorem at the example list, also discharging the
stability conjunct's hypotheses on the pair (Alpha, Beta). -/
theorem c4_rank_stable_sort_witness :
    (sort_prioritaires_first [offZeta, offAlpha, offBeta]).Perm [offZeta, offAlpha, offBeta] ∧
    [offAlpha, offBeta].Sublist (sort_prioritaires_first [offZeta, offAlpha, offBeta]) :=
  ⟨(c4_rank_stable_sort [offZeta, offAlpha, offBeta]).1,
    (c4_rank_stable_sort [offZeta, offAlpha, offBeta]).2.2.1 offAlpha offBeta
      (by decide) (by decide)⟩

/-! ## Lemmas about the fetch loop -/

/-- When every remaining attempt fails, the loop exhausts them all, sleeps
after each and propagates the error of the last attempt. -/
theorem safe_get_go_all_fail (env : FetchEnv) :
    ∀ (n s : Nat) (last : Option FetchErr) (sleeps atts : List Nat), 0 < n →
      (∀ j ∈ List.range' s n, attemptFails env j = true) →
      safe_get_go env (List.range' s n) last sleeps atts =
        (.error (attemptErrO env (s + n - 1)),
         sleeps ++ (List.range' s n).map (fun a => 15 * a),
         atts ++ List.range' s n)
  | 0, _, _, _, _, h0, _ => absurd h0 (by omega)
  | 1, s, last, sleeps, atts, _, hf => by
    have hs : attemptFails env s = true := hf s (by simp [List.range'_succ])
    have harith : s + 1 - 1 = s := by omega
    rw [List.range'_succ, harith]
    cases henv : env s with
    | error c =>
      simp [safe_get_go, attemptErrO, henv, List.range']
    | ok r =>
      have hbad : raise_for_status_bad r = true := by
        unfold attemptFails at hs
        rw [henv] at hs
        simpa using hs
      simp [safe_get_go, attemptErrO, henv, hbad, List.range']
  | n+2, s, last, sleeps, atts, _, hf => by
    have hrest : ∀ j ∈ List.range' (s+1) (n+1), attemptFails env j = true := by
      intro j hj
      exact hf j (by rw [List.range'_succ]; exact List.mem_cons_of_mem _ hj)
    have hs : attemptFails env s = true :=
      hf s (by rw [List.range'_succ]; exact List.mem_cons_self _ _)
    have harith : s + 1 + (n + 1) - 1 = s + (n + 2) - 1 := by omega
    rw [List.range'_succ]
    cases henv : env s with
    | error c =>
      have ih := safe_get_go_all_fail env (n+1) (s+1) (some (.transportError c))
        (sleeps ++ [15 * s]) (atts ++ [s]) (by omega) hrest
      rw [harith] at ih
      revert ih
      generalize List.range' (s+1) (n+1) = rest
      intro ih
      simp only [safe_get_go, henv]
      rw [ih]
      simp
    | ok r =>
      have hbad : raise_for_status_bad r = true := by
        unfold attemptFails at hs
        rw [henv] at hs
        simpa using hs
      have ih := safe_get_go_all_fail env (n+1) (s+1) (some (.httpError r))
        (sleeps ++ [15 * s]) (atts ++ [s]) (by omega) hrest
      rw [harith] at ih
      revert ih
      generalize List.range' (s+1) (n+1) = rest
      intro ih
      simp only [safe_get_go, henv, hbad, if_true]
      rw [ih]
      simp

/-- When attempt `k` is the first that does not fail, the loop returns its
response, having slept after each of the earlier attempts. -/
theorem safe_get_go_success (env : FetchEnv) :
    ∀ (n s : Nat) (k : Nat) (last : Option FetchErr) (sleeps atts : List Nat),
      k ∈ List.range' s n →
      (∀ j ∈ List.range' s n, j < k → attemptFails env j = true) →
      attemptFails env k = false →
      safe_get_go env (List.range' s n) last sleeps atts =
        (.ok (envResp env k),
         sleeps ++ (List.range' s (k - s)).map (fun a => 15 * a),
         atts ++ List.range' s (k - s + 1))
  | 0, s, k, _, _, _, hk, _, _ => by simp [List.range'] at hk
  | n+1, s, k, last, sleeps, atts, hk, hbef, hsucc => by
    rw [List.range'_succ] at hk
    rw [List.range'_succ]
    rcases List.mem_cons.mp hk with rfl | hk
    · have hkk : k - k = 0 := by omega
      cases henv : env k with
      | error c =>
        exfalso
        unfold attemptFails at hsucc
        rw [henv] at hsucc
        cases hsucc
      | ok r =>
        have hok : raise_for_status_bad r = false := by
          unfold attemptFails at hsucc
          rw [henv] at hsucc
          simpa using hsucc
        simp [safe_get_go, envResp, henv, hok, hkk, List.range', List.range'_succ]
    · have hks : s < k := by
        have := (List.mem_range'_1.mp hk).1
        omega
      have hsf : attemptFails env s = true :=
        hbef s (by rw [List.range'_succ]; exact List.mem_cons_self _ _) hks
      have hbef' : ∀ j ∈ List.range' (s+1) n, j < k → attemptFails env j = true := by
        intro j hj hjk
        exact hbef j (by rw [List.range'_succ]; exact List.mem_cons_of_mem _ hj) hjk
      have harith1 : k - s = (k - (s + 1)) + 1 := by omega
      rw [harith1, List.range'_succ, List.range'_succ]
      cases henv : env s with
      | error c =>
        have ih := safe_get_go_success env n (s+1) k (some (.transportError c))
          (sleeps ++ [15 * s]) (atts ++ [s]) hk hbef' hsucc
        revert ih
        generalize List.range' (s+1) n = rest
        intro ih
        simp only [safe_get_go, henv]
        rw [ih]
        simp
      | ok r =>
        have hbad : raise_for_status_bad r = true := by
          unfold attemptFails at hsf
          rw [henv] at hsf
          simpa using hsf
        have ih := safe_get_go_success env n (s+1) k (some (.httpError r))
          (sleeps ++ [15 * s]) (atts ++ [s]) hk hbef' hsucc
        revert ih
        generalize List.range' (s+1) n = rest
        intro ih
        simp only [safe_get_go, henv, hbad, if_true]
        rw [ih]
        simp

/-! ## Claim C6 -/

/-- Claim C6 (corrected: "succeeds" is `raise_for_status` not raising — any
status outside 400–599, not only 2xx): for `maxRetries ≥ 1`, `safe_get`
issues at most `maxRetries` attempts; it returns the response of the first
attempt on which `raise_for_status` does not raise, having slept
`1.5 × attemptNumber` seconds (recorded as `15 × attemptNumber` tenths)
after each earlier failed attempt; and when every attempt fails (4xx/5xx
status or transport exception) it raises the error of the last attempt,
having slept after every attempt including the last. -/
theorem c6_safe_get_retries (env : FetchEnv) (mr : Nat) (hmr : 1 ≤ mr) :
    (∀ k : Nat, 1 ≤ k → k ≤ mr →
      (∀ j : Nat, 1 ≤ j → j < k → attemptFails env j = true) →
      attemptFails env k = false →
      safe_get env mr =
        (.ok (envResp env k),
         (List.range' 1 (k - 1)).map (fun a => 15 * a),
         List.range' 1 k)) ∧
    ((∀ j : Nat, 1 ≤ j → j ≤ mr → attemptFails env j = true) →
      safe_get env mr =
        (.error (attemptErrO env mr),
         (List.range' 1 mr).map (fun a => 15 * a),
         List.range' 1 mr)) := by
  constructor
  · intro k hk1 hk2 hbef hsucc
    unfold safe_get
    rw [safe_get_go_success env mr 1 k none [] [] (by rw [List.mem_range'_1]; omega)
      (fun j hj hjk => hbef j (List.mem_range'_1.mp hj).1 hjk) hsucc]
    have h1 : k - 1 + 1 = k := by omega
    rw [h1]
    simp
  · intro hall
    unfold safe_get
    rw [safe_get_go_all_fail env mr 1 none [] [] (by omega)
      (fun j hj => hall j (List.mem_range'_1.mp hj).1 (by have := (List.mem_range'_1.mp hj).2; omega))]
    have h1 : 1 + mr - 1 = mr := by omega
    rw [h1]
    simp

/-- Witness for C6's theorem: a transport failure on attempt 1 and a 200
response on attempt 2, with two allowed attempts. -/
theorem c6_safe_get_retries_witness :
    safe_get envC6 2 = (.ok ⟨200, "hello"⟩, [15], [1, 2]) := by
  have h := (c6_safe_get_retries envC6 2 (by omega)).1 2 (by omega) (by omega)
    (fun j hj1 hj2 => by
      have : j = 1 := by omega
      subst this
      decide)
    (by decide)
  simpa using h

/-- Claim C6, counterexample to the literal statement: every response has
status 304, which is not 2xx, yet `raise_for_status` does not raise on it,
so `safe_get` returns the 304 response instead of treating every attempt as
failed and raising the last error. -/
theorem c6_counterexample :
    safe_get env304 1 = (.ok ⟨304, "nm"⟩, [], [1]) ∧ is2xx 304 = false :=
  ⟨rfl, rfl⟩

/-! ## Claim C10 -/

/-- The link of every posting the markup extractor emits: the source's own
URL (href-less fallback) or `urljoin` of the source URL with a non-empty
href. -/
theorem process_html_item_lien (urljoin : String → String → String)
    (stripHtml : String → String) (src : SourceHtml) (it : Item) (o : Offre)
    (h : process_html_item urljoin stripHtml src it = some o) :
    o.lien = src.url ∨ ∃ href, href ≠ "" ∧ o.lien = urljoin src.url href := by
  obtain ⟨te, le, de, loe, dse⟩ := it
  rcases le with _ | (_ | href)
  · rcases te with _ | t
    all_goals rcases de with _ | d
    all_goals rcases loe with _ | lo
    all_goals rcases dse with _ | ds
    all_goals (
      unfold process_html_item at h
      dsimp only at h
      split at h
      · cases h
      · split at h
        · injection h with h
          subst h
          simp
        · cases h)
  · unfold process_html_item at h
    cases h
  · rcases te with _ | t
    all_goals rcases de with _ | d
    all_goals rcases loe with _ | lo
    all_goals rcases dse with _ | ds
    all_goals (
      unfold process_html_item at h
      dsimp only at h
      split at h
      · cases h
      · split at h
        · injection h with h
          subst h
          by_cases hh : pyStrip href = ""
          · simp [hh]
          · right
            exact ⟨pyStrip href, hh, by simp [hh]⟩
        · cases h)

/-- Lists with pairwise distinct keys keep at most one element per key
under filtering. -/
theorem filter_key_le_one {α : Type} (f : α → String) :
    ∀ (l : List α), (l.map f).Nodup →
      ∀ k : String, (l.filter (fun x => f x == k)).length ≤ 1
  | [], _, _ => by simp
  | a :: l, hnd, k => by
    rw [List.filter_cons]
    rw [List.map_cons, List.nodup_cons] at hnd
    obtain ⟨hna, hnd'⟩ := hnd
    by_cases ha : f a == k
    · rw [if_pos (by simpa using ha)]
      have hk : k = f a := (beq_iff_eq.mp ha).symm
      have : l.filter (fun x => f x == k) = [] := by
        rw [List.filter_eq_nil_iff]
        intro x hx
        simp only [beq_iff_eq, hk]
        intro hc
        exact hna (hc ▸ List.mem_map_of_mem f hx)
      simp [this]
    · rw [if_neg (by simpa using ha)]
      exact filter_key_le_one f l hnd' k

set_option maxHeartbeats 2000000 in
/-- Claim C10 (corrected: only items whose link selector finds no element
at all fall back to the source URL; an element without an `href` attribute
raises and the item is skipped): a markup item with no link element that
passes the filters gets the source's own URL as its link; every posting the
markup path emits has a non-empty link (given that `urljoin` preserves
non-emptiness and the source URL is non-empty); and link-deduplication
keeps at most one posting per non-empty stripped link, so of several
source-URL-fallback postings from one source all but the first are
removed. -/
theorem c10_href_fallback (urljoin : String → String → String)
    (stripHtml : String → String) (src : SourceHtml) (it : Item)
    (seen : Finset String) (items : List Item)
    (hlink : it.link_el = none)
    (hurl : ∀ b r, r ≠ "" → urljoin b r ≠ "")
    (hsrc : src.url ≠ "") :
    (∀ o2, process_html_item urljoin stripHtml src it = some o2 → o2.lien = src.url) ∧
    (∀ o ∈ extraire_offres_html urljoin stripHtml src items, o.lien ≠ "") ∧
    (∀ k : String, k ≠ "" →
      ((dedupe_and_new_only seen (extraire_offres_html urljoin stripHtml src items)).filter
        (fun x => pyStrip x.lien == k)).length ≤ 1) := by
  refine ⟨?_, ?_, ?_⟩
  · intro o2 h
    obtain ⟨te, le, de, loe, dse⟩ := it
    have hle : le = none := hlink
    subst hle
    rcases te with _ | t
    all_goals rcases de with _ | d
    all_goals rcases loe with _ | lo
    all_goals rcases dse with _ | ds
    all_goals (
      unfold process_html_item at h
      dsimp only at h
      split at h
      · cases h
      · split at h
        · injection h with h
          subst h
          simp
        · cases h)
  · intro o ho
    obtain ⟨it2, _, hproc⟩ := List.mem_filterMap.mp ho
    rcases process_html_item_lien urljoin stripHtml src it2 o hproc with h | ⟨href, hh, h⟩
    · rw [h]; exact hsrc
    · rw [h]; exact hurl src.url href hh
  · intro k _
    have hnd := (dedupe_go_keys seen (extraire_offres_html urljoin stripHtml src items) []).1
    exact filter_key_le_one (fun x => pyStrip x.lien)
      (dedupe_and_new_only seen (extraire_offres_html urljoin stripHtml src items)) hnd k

/-- Non-emptiness of the concrete `urljoin` capability. -/
theorem uj0_nonempty (b r : String) (hr : r ≠ "") : uj0 b r ≠ "" := by
  intro hc
  apply hr
  have hd : (uj0 b r).data = [] := by rw [hc]
  rw [show (uj0 b r).data = b.data ++ r.data from String.data_append b r] at hd
  have hr' : r.data = [] := (List.append_eq_nil.mp hd).2
  cases r with
  | mk d =>
    simp only [String.data] at hr'
    subst hr'
    rfl

/-- Witness for C10's theorem: two link-less OSCE items share the source
URL as link, and deduplication keeps at most one posting with that link. -/
theorem c10_href_fallback_witness :
    ((dedupe_and_new_only ∅ (extraire_offres_html uj0 sh0 srcOsce
        [itemNoLinkEl, itemNoLinkEl2])).filter
      (fun x => pyStrip x.lien == "https://jobs.osce.org/")).length ≤ 1 :=
  (c10_href_fallback uj0 sh0 srcOsce itemNoLinkEl ∅ [itemNoLinkEl, itemNoLinkEl2]
    rfl uj0_nonempty (by decide)).2.2 "https://jobs.osce.org/" (by decide)

/-- Claim C10, counterexample to the literal statement: two identical items
passing all filters, one whose link selector found no element (kept, with
the source URL as link) and one whose link element has no `href` attribute
(`link_el.get("href")` is `None`, `None.strip()` raises, the per-item
handler skips it) — the latter is dropped, not kept. -/
theorem c10_counterexample :
    extraire_offres_html uj0 sh0 srcOsce [itemNoHrefAttr] = [] ∧
    process_html_item uj0 sh0 srcOsce itemNoLinkEl =
      some ⟨"", "OSCE Jobs HTML", "stage france", "Non précisé", "https://jobs.osce.org/", "—"⟩ := by
  refine ⟨by decide, by decide⟩

/-! ## Lemmas about splitting and chunking -/

/-- One `splitlines` step prepends exactly its character to the flattened
text. -/
theorem slStep_flatten (c : Char) (acc : List (List Char)) :
    (slStep c acc).flatten = c :: acc.flatten := by
  unfold slStep
  split
  · split
    · rename_i hr
      have hc : c = '\r' := eq_of_beq hr
      subst hc
      match acc with
      | [] => simp
      | l :: ls =>
        simp only []
        split <;> simp
    · simp
  · match acc with
    | [] => simp
    | l :: ls => simp

/-- Splitting into kept-terminator lines loses no characters:
the lines flatten back to the text. -/
theorem splitlines_flatten (cs : List Char) : (splitlinesKeep cs).flatten = cs := by
  induction cs with
  | nil => rfl
  | cons c cs ih =>
    show (slStep c (splitlinesKeep cs)).flatten = c :: cs
    rw [slStep_flatten, ih]

/-- The chunking loop emits groups that flatten to the pending buffer plus
the remaining lines. -/
theorem chunkGroups_flatten (limit : Nat) :
    ∀ (lines buf : List (List Char)) (size : Nat),
      (chunkGroups limit lines buf size).flatten = buf ++ lines
  | [], buf, size => by
    unfold chunkGroups
    by_cases h : buf.isEmpty
    · rw [if_pos h]
      simp [List.isEmpty_iff.mp h]
    · rw [if_neg h]
      simp
  | line :: rest, buf, size => by
    unfold chunkGroups
    by_cases h : size + line.length > limit
    · rw [if_pos h]
      simp [chunkGroups_flatten limit rest [line] line.length]
    · rw [if_neg h]
      rw [chunkGroups_flatten limit rest (buf ++ [line]) (size + line.length)]
      simp

/-- When every line fits in the limit and the running size is accurate and
within the limit, every emitted group fits in the limit. -/
theorem chunkGroups_sizes (limit : Nat) :
    ∀ (lines buf : List (List Char)) (size : Nat),
      (∀ l ∈ lines, l.length ≤ limit) → size = buf.flatten.length → size ≤ limit →
      ∀ g ∈ chunkGroups limit lines buf size, g.flatten.length ≤ limit
  | [], buf, size, _, hsz, hle, g, hg => by
    unfold chunkGroups at hg
    by_cases h : buf.isEmpty
    · rw [if_pos h] at hg
      cases hg
    · rw [if_neg h] at hg
      rcases List.mem_singleton.mp hg with rfl
      omega
  | line :: rest, buf, size, hlines, hsz, hle, g, hg => by
    unfold chunkGroups at hg
    have hline : line.length ≤ limit := hlines line (List.mem_cons_self _ _)
    have hrest : ∀ l ∈ rest, l.length ≤ limit :=
      fun l hl => hlines l (List.mem_cons_of_mem _ hl)
    by_cases h : size + line.length > limit
    · rw [if_pos h] at hg
      rcases List.mem_cons.mp hg with rfl | hg
      · omega
      · exact chunkGroups_sizes limit rest [line] line.length hrest (by simp) hline g hg
    · rw [if_neg h] at hg
      exact chunkGroups_sizes limit rest (buf ++ [line]) (size + line.length) hrest
        (by simp [hsz]) (by omega) g hg

/-- The first group the chunking loop emits is at least as large as the
pending buffer. -/
theorem chunkGroups_head_ge (limit : Nat) :
    ∀ (lines buf : List (List Char)) (size : Nat) (g : List (List Char))
      (gs : List (List (List Char))),
      size = buf.flatten.length →
      chunkGroups limit lines buf size = g :: gs → size ≤ g.flatten.length
  | [], buf, size, g, gs, hsz, heq => by
    unfold chunkGroups at heq
    by_cases h : buf.isEmpty
    · rw [if_pos h] at heq
      cases heq
    · rw [if_neg h] at heq
      injection heq with h1 _
      subst h1
      omega
  | line :: rest, buf, size, g, gs, hsz, heq => by
    unfold chunkGroups at heq
    by_cases h : size + line.length > limit
    · rw [if_pos h] at heq
      injection heq with h1 _
      subst h1
      omega
    · rw [if_neg h] at heq
      have := chunkGroups_head_ge limit rest (buf ++ [line]) (size + line.length) g gs
        (by simp [hsz]) heq
      omega

/-- Consecutive emitted groups together exceed the limit: the loop flushes
only when the next line would not fit. -/
theorem chunkGroups_chain (limit : Nat) :
    ∀ (lines buf : List (List Char)) (size : Nat),
      size = buf.flatten.length →
      List.Chain' (fun g1 g2 => limit < g1.flatten.length + g2.flatten.length)
        (chunkGroups limit lines buf size)
  | [], buf, size, hsz => by
    unfold chunkGroups
    by_cases h : buf.isEmpty
    · rw [if_pos h]
      exact List.chain'_nil
    · rw [if_neg h]
      exact List.chain'_singleton _
  | line :: rest, buf, size, hsz => by
    unfold chunkGroups
    by_cases h : size + line.length > limit
    · rw [if_pos h]
      have hchain := chunkGroups_chain limit rest [line] line.length (by simp)
      rw [List.chain'_cons']
      refine ⟨?_, hchain⟩
      intro y hy
      rcases hhd : chunkGroups limit rest [line] line.length with _ | ⟨g, gs⟩
      · rw [hhd] at hy
        cases hy
      · rw [hhd] at hy
        have hge := chunkGroups_head_ge limit rest [line] line.length g gs (by simp) hhd
        simp only [List.head?_cons, Option.mem_def, Option.some.injEq] at hy
        subst hy
        omega
    · rw [if_neg h]
      exact chunkGroups_chain limit rest (buf ++ [line]) (size + line.length) (by simp [hsz])

/-- The characters of a joined string list are the concatenation of the
characters of its members. -/
theorem join_data : ∀ (l : List String) (s : String),
    (l.foldl (fun r s2 => r ++ s2) s).data = s.data ++ (l.map String.data).flatten
  | [], s => by simp
  | a :: l, s => by
    rw [List.foldl_cons, join_data l (s ++ a)]
    rw [String.data_append]
    simp

/-- `String.join` at the character level. -/
theorem string_join_data (l : List String) :
    (String.join l).data = (l.map String.data).flatten := by
  show (l.foldl (fun r s2 => r ++ s2) "").data = _
  rw [join_data l ""]
  rfl

/-! ## Claim C5 -/

/-- Claim C5 (corrected: a 5000-character payload can split into 3 parts,
not always exactly 2): for every text of exactly 5000 characters in which
no kept-terminator line exceeds 4096 characters, `chunk_telegram` with
limit 4096 yields at least 2 and at most 3 parts, each part is at most 4096
characters, the parts are concatenations of consecutive whole lines (so
splits occur only at line boundaries, terminators preserved), and the
concatenation of the parts is the original text. -/
theorem c5_chunk_properties (text : String)
    (hlen : text.length = 5000)
    (hlines : ∀ l ∈ splitlinesKeep text.data, l.length ≤ 4096) :
    (2 ≤ (chunk_telegram text 4096).length ∧ (chunk_telegram text 4096).length ≤ 3) ∧
    (∀ p ∈ chunk_telegram text 4096, p.length ≤ 4096) ∧
    String.join (chunk_telegram text 4096) = text ∧
    (chunk_telegram text 4096).map String.data
      = (chunkGroups 4096 (splitlinesKeep text.data) [] 0).map List.flatten ∧
    (chunkGroups 4096 (splitlinesKeep text.data) [] 0).flatten = splitlinesKeep text.data := by
  have hdata : text.data.length = 5000 := hlen
  have hmapdata : (chunk_telegram text 4096).map String.data
      = (chunkGroups 4096 (splitlinesKeep text.data) [] 0).map List.flatten := by
    unfold chunk_telegram
    rw [List.map_map]
    rfl
  have hgflat : (chunkGroups 4096 (splitlinesKeep text.data) [] 0).flatten
      = splitlinesKeep text.data := by
    rw [chunkGroups_flatten]
    rfl
  have hconcat : ((chunk_telegram text 4096).map String.data).flatten = text.data := by
    rw [hmapdata, ← List.flatten_flatten, hgflat, splitlines_flatten]
  have hjoin : String.join (chunk_telegram text 4096) = text := by
    have hd : (String.join (chunk_telegram text 4096)).data = text.data := by
      rw [string_join_data, hconcat]
    exact congrArg String.mk hd
  have hsizes : ∀ p ∈ chunk_telegram text 4096, p.length ≤ 4096 := by
    intro p hp
    unfold chunk_telegram at hp
    obtain ⟨g, hg, hpg⟩ := List.mem_map.mp hp
    have := chunkGroups_sizes 4096 (splitlinesKeep text.data) [] 0 hlines rfl
      (by omega) g hg
    rw [← hpg]
    exact this
  have hsum : ((chunk_telegram text 4096).map (fun p => p.length)).sum = 5000 := by
    have := congrArg List.length hconcat
    rw [List.length_flatten, List.map_map, hdata] at this
    exact this
  refine ⟨⟨?_, ?_⟩, hsizes, hjoin, hmapdata, hgflat⟩
  · rcases hp : chunk_telegram text 4096 with _ | ⟨p1, l1⟩
    · rw [hp] at hsum
      simp at hsum
    · rcases l1 with _ | ⟨p2, l2⟩
      · rw [hp] at hsum
        simp at hsum
        have := hsizes p1 (by rw [hp]; exact List.mem_cons_self _ _)
        omega
      · simp [hp]
  · by_contra hgt
    push_neg at hgt
    have hlen4 : 4 ≤ (chunk_telegram text 4096).length := hgt
    have hglen : 4 ≤ (chunkGroups 4096 (splitlinesKeep text.data) [] 0).length := by
      have := congrArg List.length hmapdata
      simp only [List.length_map] at this
      omega
    have hchain := chunkGroups_chain 4096 (splitlinesKeep text.data) [] 0 rfl
    rcases hG : chunkGroups 4096 (splitlinesKeep text.data) [] 0 with _ | ⟨g1, G1⟩
    · rw [hG] at hglen; simp at hglen
    rcases G1 with _ | ⟨g2, G2⟩
    · rw [hG] at hglen; simp at hglen
    rcases G2 with _ | ⟨g3, G3⟩
    · rw [hG] at hglen; simp at hglen
    rcases G3 with _ | ⟨g4, G4⟩
    · rw [hG] at hglen; simp at hglen
    rw [hG] at hchain
    have h12 : 4096 < g1.flatten.length + g2.flatten.length :=
      (List.chain'_cons.mp hchain).1
    have h34 : 4096 < g3.flatten.length + g4.flatten.length :=
      (List.chain'_cons.mp (List.chain'_cons.mp (List.chain'_cons.mp hchain).2).2).1
    have hsum2 : ((chunk_telegram text 4096).map (fun p => p.length)).sum
        = g1.flatten.length + (g2.flatten.length + (g3.flatten.length +
            (g4.flatten.length + ((G4.map List.flatten).map List.length).sum))) := by
      have hm : (chunk_telegram text 4096).map (fun p => p.length)
          = ((chunkGroups 4096 (splitlinesKeep text.data) [] 0).map List.flatten).map
              List.length := by
        have := congrArg (List.map List.length) hmapdata
        rw [List.map_map] at this
        exact this
      rw [hm, hG]
      simp
    rw [hsum] at hsum2
    omega

/-- A non-break character prepends to the first line. -/
theorem slStep_nonbreak_cons (c : Char) (h : isLineBreak c = false)
    (l : List Char) (ls : List (List Char)) :
    slStep c (l :: ls) = (c :: l) :: ls := by
  unfold slStep
  rw [if_neg (by simp [h])]

/-- A non-break character starts the only line of a one-character text. -/
theorem slStep_nonbreak_nil (c : Char) (h : isLineBreak c = false) :
    slStep c [] = [[c]] := by
  unfold slStep
  rw [if_neg (by simp [h])]

/-- A newline opens a fresh line. -/
theorem slStep_nl (acc : List (List Char)) : slStep '\n' acc = ['\n'] :: acc := by
  unfold slStep
  rw [if_pos (by decide), if_neg (by decide)]

/-- A run of one non-break character prepends to the first pending line. -/
theorem foldr_slStep_replicate (c : Char) (h : isLineBreak c = false) :
    ∀ (n : Nat) (l : List Char) (ls : List (List Char)),
      (List.replicate n c).foldr slStep (l :: ls) = (List.replicate n c ++ l) :: ls
  | 0, l, ls => by simp
  | n+1, l, ls => by
    rw [List.replicate_succ, List.foldr_cons, foldr_slStep_replicate c h n l ls,
      slStep_nonbreak_cons c h]
    simp [List.replicate_succ]

/-- A non-empty run of one non-break character is a single line. -/
theorem foldr_slStep_replicate_nil (c : Char) (h : isLineBreak c = false) :
    ∀ n : Nat, 0 < n → (List.replicate n c).foldr slStep [] = [List.replicate n c]
  | n+1, _ => by
    cases n with
    | zero => simp [slStep_nonbreak_nil c h]
    | succ m =>
      rw [List.replicate_succ, List.foldr_cons,
        foldr_slStep_replicate_nil c h (m+1) (by omega),
        slStep_nonbreak_cons c h]

/-- The counterexample text splits into its three lines of 900, 3300 and
800 characters. -/
theorem c5_bad_split :
    splitlinesKeep c5_bad_chars =
      [List.replicate 899 'a' ++ ['\n'], List.replicate 3299 'b' ++ ['\n'],
       List.replicate 800 'c'] := by
  unfold c5_bad_chars splitlinesKeep
  simp only [List.foldr_append, List.foldr_cons]
  rw [foldr_slStep_replicate_nil 'c' (by decide) 800 (by omega)]
  simp only [slStep_nl]
  rw [foldr_slStep_replicate 'b' (by decide), foldr_slStep_replicate 'a' (by decide)]

/-- The witness text splits into its two lines of 4000 and 1000
characters. -/
theorem c5_wit_split :
    splitlinesKeep c5_wit_chars =
      [List.replicate 3999 'a' ++ ['\n'], List.replicate 1000 'b'] := by
  unfold c5_wit_chars splitlinesKeep
  simp only [List.foldr_append, List.foldr_cons]
  rw [foldr_slStep_replicate_nil 'b' (by decide) 1000 (by omega)]
  simp only [slStep_nl]
  rw [foldr_slStep_replicate 'a' (by decide)]

/-- Claim C5, counterexample to the literal statement: the 5000-character
text with lines of 900, 3300 and 800 characters (each below 4096) splits
into 3 parts, not exactly 2 — the greedy loop flushes 900, then 3300, then
800, because 900 + 3300 and 3300 + 800 both exceed 4096. -/
theorem c5_counterexample :
    c5_bad_text.length = 5000 ∧
    (∀ l ∈ splitlinesKeep c5_bad_text.data, l.length ≤ 4096) ∧
    (chunk_telegram c5_bad_text 4096).length = 3 := by
  have hdata : c5_bad_text.data = c5_bad_chars := rfl
  have hl1 : (List.replicate 899 'a' ++ ['\n']).length = 900 := by
    rw [List.length_append, List.length_replicate, List.length_singleton]
  have hl2 : (List.replicate 3299 'b' ++ ['\n']).length = 3300 := by
    rw [List.length_append, List.length_replicate, List.length_singleton]
  have hl3 : (List.replicate 800 'c').length = 800 := List.length_replicate 800 'c'
  refine ⟨?_, ?_, ?_⟩
  · show c5_bad_chars.length = 5000
    unfold c5_bad_chars
    rw [List.length_append, List.length_replicate, List.length_cons,
      List.length_append, List.length_replicate, List.length_cons,
      List.length_replicate]
  · rw [hdata, c5_bad_split]
    intro l hl
    simp only [List.mem_cons, List.not_mem_nil, or_false] at hl
    rcases hl with rfl | rfl | rfl
    · rw [hl1]; omega
    · rw [hl2]; omega
    · rw [hl3]; omega
  · unfold chunk_telegram
    rw [hdata, c5_bad_split]
    have hstep : chunkGroups 4096 [List.replicate 899 'a' ++ ['\n'],
        List.replicate 3299 'b' ++ ['\n'], List.replicate 800 'c'] [] 0
        = [[List.replicate 899 'a' ++ ['\n']], [List.replicate 3299 'b' ++ ['\n']],
           [List.replicate 800 'c']] := by
      unfold chunkGroups
      rw [if_neg (by rw [hl1]; omega)]
      unfold chunkGroups
      rw [if_pos (by rw [hl1, hl2]; omega)]
      unfold chunkGroups
      rw [if_pos (by rw [hl2, hl3]; omega)]
      unfold chunkGroups
      rw [if_neg (by decide)]
      rw [List.nil_append]
    rw [hstep]
    rfl

/-- Witness for C5's theorem: the 5000-character text with lines of 4000
and 1000 characters satisfies the hypotheses; its part count is between 2
and 3. -/
theorem c5_chunk_properties_witness :
    2 ≤ (chunk_telegram c5_wit_text 4096).length ∧
    (chunk_telegram c5_wit_text 4096).length ≤ 3 :=
  (c5_chunk_properties c5_wit_text
    (by
      show c5_wit_chars.length = 5000
      unfold c5_wit_chars
      rw [List.length_append, List.length_replicate, List.length_cons,
        List.length_replicate])
    (by
      have hdata : c5_wit_text.data = c5_wit_chars := rfl
      have hw1 : (List.replicate 3999 'a' ++ ['\n']).length = 4000 := by
        rw [List.length_append, List.length_replicate, List.length_singleton]
      have hw2 : (List.replicate 1000 'b').length = 1000 := List.length_replicate 1000 'b'
      rw [hdata, c5_wit_split]
      intro l hl
      simp only [List.mem_cons, List.not_mem_nil, or_false] at hl
      rcases hl with rfl | rfl
      · rw [hw1]; omega
      · rw [hw2]; omega)).1
